import Mathlib

/-!
Shallow embedding of `src/data/convert_to_parquet.py`, `src/preprocessing.py`
and `src/utilites.py` from GeamXD/Reducing-high-fatality-road-accidents.

Modelling conventions:
* a pandas DataFrame chunk read with `dtype=str` is a `Chunk`: a column-name
  list plus rows of `Cell`s (a raw CSV cell is `Cell.text` or `Cell.missing`);
* `pd.to_numeric(-, errors='coerce')` is `toNumericCell` (unparseable text
  becomes the missing marker `NaN`, modelled as `Cell.missing`);
* float64 values are idealised as exact rationals `ℚ`;
* `.astype('Int64')` is `astypeInt64`; pandas raises on a non-integral float
  ("cannot safely cast"), modelled as `Except.error`;
* the on-disk size of an open Parquet shard is an oracle
  `sizeMB : List Row → ℚ` (a function of the rows written to it), since byte
  sizes are not derivable in the embedding; all theorems hold for every oracle.
-/

/-- Semantic column types distinguished by the converter (pyarrow's
`is_integer` / `is_floating`, everything else treated as text). -/
inductive PAType
  | int
  | float
  | str
deriving DecidableEq, Repr

/-- One field of the Master Schema: a column name and its inferred type. -/
structure SchemaField where
  name : String
  type : PAType
deriving DecidableEq, Repr

abbrev Schema := List SchemaField

/-- A pandas cell value as it evolves through the pipeline: raw text, the
missing marker (NaN / NA), an exact numeric (float64 idealised as ℚ), or a
nullable-Int64 integer. -/
inductive Cell
  | missing
  | text (s : String)
  | num (q : ℚ)
  | intv (n : Int)
deriving DecidableEq, Repr

abbrev Row := List Cell

/-- A DataFrame chunk: the shared column header and the rows (cells are
addressed positionally through the header). -/
structure Chunk where
  cols : List String
  rows : List Row
deriving DecidableEq, Repr

/-- Decimal digit-string value. -/
def digitsVal (cs : List Char) : Nat :=
  cs.foldl (fun n c => n * 10 + (c.toNat - 48)) 0

/-- Parse an unsigned decimal literal (digits with an optional decimal
point), the core of `pd.to_numeric` on a string. The value
`I.F` is assembled as the exact rational `(I·10^k + F) / 10^k` where `k`
is the number of fractional digits. -/
def parseUnsigned (cs : List Char) : Option ℚ :=
  let ip := cs.takeWhile (· ≠ '.')
  match cs.dropWhile (· ≠ '.') with
  | [] =>
    if cs ≠ [] ∧ cs.all Char.isDigit then
      some (Rat.divInt (Int.ofNat (digitsVal cs)) 1)
    else none
  | _ :: frac =>
    if (ip.all Char.isDigit ∧ frac.all Char.isDigit) ∧ (ip ≠ [] ∨ frac ≠ []) ∧
        frac.all (· ≠ '.') then
      some (Rat.divInt (Int.ofNat (digitsVal ip * 10 ^ frac.length + digitsVal frac))
        (Int.ofNat (10 ^ frac.length)))
    else none

/-- Strip surrounding whitespace, as `pd.to_numeric` does before parsing. -/
def trimChars (cs : List Char) : List Char :=
  ((cs.dropWhile Char.isWhitespace).reverse.dropWhile Char.isWhitespace).reverse

/-- `pd.to_numeric` string parsing: optional sign around an unsigned decimal
literal, `none` when unparseable (pandas then yields NaN under
`errors='coerce'`). -/
def parseNumeric (s : String) : Option ℚ :=
  match trimChars s.toList with
  | [] => none
  | '-' :: cs => (parseUnsigned cs).map (fun q => -q)
  | '+' :: cs => parseUnsigned cs
  | cs => parseUnsigned cs

/-- `pd.to_numeric(-, errors='coerce')` on one cell: missing stays missing,
text parses or coerces to missing, numerics pass through. -/
def toNumericCell : Cell → Cell
  | .missing => .missing
  | .text s =>
    match parseNumeric s with
    | some q => .num q
    | none => .missing
  | .num q => .num q
  | .intv n => .num n

/-- `.astype('Int64')` on one (post-`to_numeric`) cell: missing becomes NA,
an integral float becomes Int64, a non-integral float raises (pandas:
"cannot safely cast non-equivalent float64 to int64"). -/
def astypeInt64 : Cell → Except Unit Cell
  | .missing => .ok .missing
  | .num q => if q.den = 1 then .ok (.intv q.num) else .error ()
  | .intv n => .ok (.intv n)
  | .text _ => .error ()

deriving instance DecidableEq for Except

example : parseNumeric "2016" = some 2016 := by decide
example : parseNumeric "abc" = none := by decide
example : parseNumeric "-3.5" = some (Rat.divInt (-7) 2) := by decide
example : toNumericCell (.text "3.7") = .num (Rat.divInt 37 10) := by decide
example : astypeInt64 (.num (Rat.divInt 37 10)) = .error () := by decide
example : astypeInt64 (.num 2016) = .ok (.intv 2016) := by decide

/-- Type-directed coercion of one cell, per lines 67-71 of
`convert_to_parquet.py`: integer-typed columns run
`pd.to_numeric(-, errors='coerce').astype('Int64')`, floating-typed
columns run `pd.to_numeric(-, errors='coerce')`, all other columns stay
as-is. -/
def coerceCell (t : PAType) (c : Cell) : Except Unit Cell :=
  match t with
  | .int => astypeInt64 (toNumericCell c)
  | .float => .ok (toNumericCell c)
  | .str => .ok c

/-- Apply a fallible cell transformation to column `i` of every row
(the embedding of a whole-column pandas assignment such as
`chunk[col] = pd.to_numeric(chunk[col], ...)`); any per-cell error aborts
the column operation, as a pandas column operation raises as a whole. -/
def mapCells (f : Cell → Except Unit Cell) (i : Nat) : List Row → Except Unit (List Row)
  | [] => .ok []
  | r :: rs =>
    match f (r.getD i .missing) with
    | .error e => .error e
    | .ok v =>
      match mapCells f i rs with
      | .error e => .error e
      | .ok rs' => .ok (r.set i v :: rs')

/-- Index of a named column in the header (`col_name in chunk.columns`
resolves to the position used for cell access). -/
def colIdx (cols : List String) (name : String) : Option Nat :=
  cols.findIdx? (· == name)

/-- Coerce one Master-Schema field's column in a chunk (one iteration of
the `for i, field in enumerate(master_schema)` loop): columns absent from
the chunk are skipped, string-typed fields stay as-is. -/
def coerceColumnRows (cols : List String) (fld : SchemaField) (rows : List Row) :
    Except Unit (List Row) :=
  match colIdx cols fld.name with
  | none => .ok rows
  | some i =>
    match fld.type with
    | .str => .ok rows
    | t => mapCells (coerceCell t) i rows

/-- Coerce every column of a chunk according to the Master Schema (the
full schema loop of lines 62-71). -/
def coerceRows (schema : Schema) (cols : List String) (rows : List Row) :
    Except Unit (List Row) :=
  match schema with
  | [] => .ok rows
  | fld :: rest =>
    match coerceColumnRows cols fld rows with
    | .error e => .error e
    | .ok rows1 => coerceRows rest cols rows1

/-- The pandas year-range mask of lines 54-55: a numeric year within the
inclusive bounds passes; the missing marker (NaN) compares `False` on both
sides, so a row with a missing year never passes. -/
def yearMask (lo hi : Int) : Cell → Bool
  | .num q => decide ((lo : ℚ) ≤ q) && decide (q ≤ (hi : ℚ))
  | _ => false

/-- The year-filter step of lines 51-56 applied to the rows of one chunk:
coerce the `collision_year` column (at index `i`) to numeric in place,
then keep only the rows passing the range mask. -/
def yearFilterAt (lo hi : Int) (i : Nat) (rows : List Row) : List Row :=
  (rows.map (fun r => r.set i (toNumericCell (r.getD i .missing)))).filter
    (fun r => yearMask lo hi (r.getD i .missing))

/-- Whole filter step including the `year_filter and 'collision_year' in
chunk.columns` guard: returns the surviving rows and the number of rows
filtered out of this chunk. -/
def yearFilterRows (yf : Option (Int × Int)) (cols : List String) (rows : List Row) :
    List Row × Nat :=
  match yf with
  | none => (rows, 0)
  | some (lo, hi) =>
    match colIdx cols "collision_year" with
    | none => (rows, 0)
    | some i =>
      let kept := yearFilterAt lo hi i rows
      (kept, rows.length - kept.length)

example :
    yearFilterRows (some (2015, 2024)) ["collision_year"]
      [[.text "2016"], [.text "1999"], [.text "abc"]] =
    ([[.num 2016]], 2) := by decide

/-- `MAX_SIZE_MB = 50` of the source. -/
def MAX_SIZE_MB : ℚ := 50

/-- The rollover trigger `MAX_SIZE_MB * 0.9` of line 91: a shard whose
on-disk size reaches this many MB is sealed. `50 · 0.9 = 45` exactly (the
float rounding of `0.9` perturbs the constant by under `4e-15` MB, ignored
by the idealisation). -/
def rolloverTriggerMB : ℚ := 45

/-- Mutable state of the chunk loop of `convert_large_csv_chunked`:
`outputFiles` records each sealed shard as its part number paired with the
rows it holds (standing for the `<base>_partNN.parquet` path and file
contents), `current` is the open `ParquetWriter` (part number and rows
written so far), and the counters mirror the script's counters. -/
structure ConvState where
  outputFiles : List (Nat × List Row)
  partNum : Nat
  current : Option (Nat × List Row)
  totalRows : Nat
  filteredRows : Nat
deriving DecidableEq, Repr

/-- Initial state of lines 39-46. -/
def initState : ConvState :=
  { outputFiles := [], partNum := 1, current := none, totalRows := 0, filteredRows := 0 }

/-- Write one (already filtered) chunk: coerce it under the Master Schema
(lines 62-71, may raise), lazily open a new shard (lines 76-79), append
the rows (lines 82-84), then run the size/rollover check (lines 86-99)
against the size oracle `sizeMB` (the `current_file.exists()` guard of
line 87 always holds once a `ParquetWriter` has created the file, so the
check is unconditional here). An `Except.error` result carries the
state at the raise point. -/
def writeChunk (schema : Schema) (sizeMB : List Row → ℚ) (st : ConvState) (c : Chunk) :
    Except ConvState ConvState :=
  match coerceRows schema c.cols c.rows with
  | .error _ => .error st
  | .ok rows2 =>
    let st1 := { st with totalRows := st.totalRows + rows2.length }
    let pr := match st1.current with
      | none => (st1.partNum, [])
      | some pr => pr
    let rows' := pr.2 ++ rows2
    if rolloverTriggerMB ≤ sizeMB rows' then
      .ok { st1 with outputFiles := st1.outputFiles ++ [(pr.1, rows')],
                     partNum := pr.1 + 1, current := none }
    else
      .ok { st1 with current := some (pr.1, rows') }

/-- One iteration of the chunk loop (lines 49-103): apply the year filter,
skip the chunk if nothing survives, otherwise coerce and write. -/
def processChunk (schema : Schema) (yf : Option (Int × Int)) (sizeMB : List Row → ℚ)
    (st : ConvState) (c : Chunk) : Except ConvState ConvState :=
  let fk := yearFilterRows yf c.cols c.rows
  let st1 := { st with filteredRows := st.filteredRows + fk.2 }
  if yf.isSome ∧ (colIdx c.cols "collision_year").isSome ∧ fk.1 = [] then
    .ok st1
  else
    writeChunk schema sizeMB st1 { cols := c.cols, rows := fk.1 }

/-- The whole chunk loop over the stream of chunks produced by
`pd.read_csv(csv_path, chunksize=CHUNK_SIZE, dtype=str)`; an exception
aborts the loop immediately. -/
def convertGo (schema : Schema) (yf : Option (Int × Int)) (sizeMB : List Row → ℚ) :
    ConvState → List Chunk → Except ConvState ConvState
  | st, [] => .ok st
  | st, c :: cs =>
    match processChunk schema yf sizeMB st c with
    | .error st' => .error st'
    | .ok st' => convertGo schema yf sizeMB st' cs

/-- Close the last still-open shard at end of input (lines 106-110). -/
def finalizeState (st : ConvState) : ConvState :=
  match st.current with
  | none => st
  | some pr =>
    { st with outputFiles := st.outputFiles ++ [pr], current := none }

/-- Result of the `except` cleanup path (lines 119-123): the shards sealed
and recorded before the failure, and the open shard that the cleanup
closed (its file stays on disk but its path was never recorded). -/
structure ConvError where
  sealedFiles : List (Nat × List Row)
  closedOpenShard : Option (Nat × List Row)
deriving DecidableEq, Repr

/-- The chunked converter `convert_large_csv_chunked` over an
already-chunked input stream: returns the ordered list of produced shards
(part number and rows), or on an exception the cleaned-up disk state. -/
def convert_large_csv_chunked (schema : Schema) (yf : Option (Int × Int))
    (sizeMB : List Row → ℚ) (chunks : List Chunk) :
    Except ConvError (List (Nat × List Row)) :=
  match convertGo schema yf sizeMB initState chunks with
  | .ok st => .ok (finalizeState st).outputFiles
  | .error st => .error { sealedFiles := st.outputFiles, closedOpenShard := st.current }

/-- Concatenation of a list of row blocks (shard contents in order). -/
def concatRows : List (List Row) → List Row
  | [] => []
  | l :: ls => l ++ concatRows ls

/-- All rows the converter has persisted in state `st`: sealed shards in
order, then the rows already written to the open shard. -/
def writtenRows (st : ConvState) : List Row :=
  concatRows (st.outputFiles.map Prod.snd) ++
    (match st.current with
     | some pr => pr.2
     | none => [])

lemma getD_set_self {l : List Cell} {i : Nat} (h : i < l.length) (v d : Cell) :
    (l.set i v).getD i d = v := by
  simp [List.getD_eq_getElem?_getD, List.getElem?_set_self, h]

lemma getD_set_ne {l : List Cell} {i j : Nat} (h : i ≠ j) (v d : Cell) :
    (l.set j v).getD i d = l.getD i d := by
  simp [List.getD_eq_getElem?_getD, List.getElem?_set_ne (Ne.symm h)]

lemma colIdx_spec {cols : List String} {name : String} {i : Nat}
    (h : colIdx cols name = some i) :
    ∃ hlt : i < cols.length, cols.get ⟨i, hlt⟩ = name := by
  obtain ⟨hlt, hp, -⟩ := List.findIdx?_eq_some_iff_getElem.mp h
  exact ⟨hlt, by simpa using hp⟩

lemma colIdx_ne {cols : List String} {a b : String} {i j : Nat}
    (ha : colIdx cols a = some i) (hb : colIdx cols b = some j) (hab : a ≠ b) :
    i ≠ j := by
  obtain ⟨hi, hia⟩ := colIdx_spec ha
  obtain ⟨hj, hjb⟩ := colIdx_spec hb
  rintro rfl
  exact hab (hia ▸ hjb ▸ rfl)

lemma concatRows_append (a b : List (List Row)) :
    concatRows (a ++ b) = concatRows a ++ concatRows b := by
  induction a with
  | nil => simp [concatRows]
  | cons x xs ih => simp [concatRows, ih]

lemma mapCells_append (f : Cell → Except Unit Cell) (i : Nat) (a b : List Row) :
    mapCells f i (a ++ b) =
      match mapCells f i a with
      | .error e => .error e
      | .ok xs =>
        match mapCells f i b with
        | .error e => .error e
        | .ok ys => .ok (xs ++ ys) := by
  induction a with
  | nil => cases hb : mapCells f i b <;> simp only [List.nil_append, mapCells, hb]
  | cons r rs ih =>
    cases hf : f (r.getD i .missing) with
    | error e => simp only [List.cons_append, mapCells, hf]
    | ok v =>
      cases ha : mapCells f i rs with
      | error e =>
        have hab : mapCells f i (rs ++ b) = .error e := by rw [ih, ha]
        simp only [List.cons_append, mapCells, List.append_eq, hf, ha, hab]
      | ok xs =>
        cases hb : mapCells f i b with
        | error e =>
          have hab : mapCells f i (rs ++ b) = .error e := by rw [ih, ha, hb]
          simp only [List.cons_append, mapCells, List.append_eq, hf, ha, hb, hab]
        | ok ys =>
          have hab : mapCells f i (rs ++ b) = .ok (xs ++ ys) := by rw [ih, ha, hb]
          simp only [List.cons_append, mapCells, List.append_eq, hf, ha, hb, hab]

lemma mapCells_ok_forall {f : Cell → Except Unit Cell} {i : Nat} :
    ∀ {rs rs' : List Row}, mapCells f i rs = .ok rs' →
      ∀ r' ∈ rs', ∃ r ∈ rs, ∃ v, f (r.getD i .missing) = .ok v ∧ r' = r.set i v := by
  intro rs
  induction rs with
  | nil => intro rs' h r' hr'; simp [mapCells] at h; subst h; simp at hr'
  | cons r rest ih =>
    intro rs' h r' hr'
    simp only [mapCells] at h
    cases hf : f (r.getD i .missing) with
    | error e => rw [hf] at h; exact absurd h (by simp)
    | ok v =>
      rw [hf] at h
      cases hrest : mapCells f i rest with
      | error e => rw [hrest] at h; exact absurd h (by simp)
      | ok rs'' =>
        rw [hrest] at h
        injection h with h
        subst h
        rcases List.mem_cons.mp hr' with h1 | h1
        · exact ⟨r, by simp, v, hf, h1⟩
        · obtain ⟨r0, hr0, v0, hv0, hr'0⟩ := ih hrest r' h1
          exact ⟨r0, by simp [hr0], v0, hv0, hr'0⟩

lemma coerceColumnRows_nil (cols : List String) (fld : SchemaField) :
    coerceColumnRows cols fld [] = .ok [] := by
  unfold coerceColumnRows
  cases colIdx cols fld.name with
  | none => rfl
  | some i => cases fld.type <;> rfl

lemma coerceColumnRows_append (cols : List String) (fld : SchemaField) (a b : List Row) :
    coerceColumnRows cols fld (a ++ b) =
      match coerceColumnRows cols fld a with
      | .error e => .error e
      | .ok xs =>
        match coerceColumnRows cols fld b with
        | .error e => .error e
        | .ok ys => .ok (xs ++ ys) := by
  unfold coerceColumnRows
  cases colIdx cols fld.name with
  | none => rfl
  | some i => cases fld.type <;> first | rfl | exact mapCells_append _ i a b

lemma coerceRows_nil (schema : Schema) (cols : List String) :
    coerceRows schema cols [] = .ok [] := by
  induction schema with
  | nil => rfl
  | cons fld rest ih => simp [coerceRows, coerceColumnRows_nil, ih]

lemma coerceRows_append (schema : Schema) (cols : List String) (a b : List Row) :
    coerceRows schema cols (a ++ b) =
      match coerceRows schema cols a with
      | .error e => .error e
      | .ok xs =>
        match coerceRows schema cols b with
        | .error e => .error e
        | .ok ys => .ok (xs ++ ys) := by
  induction schema generalizing a b with
  | nil => simp [coerceRows]
  | cons fld rest ih =>
    cases ha : coerceColumnRows cols fld a with
    | error e =>
      have hab : coerceColumnRows cols fld (a ++ b) = .error e := by
        rw [coerceColumnRows_append, ha]
      simp [coerceRows, ha, hab]
    | ok xs =>
      cases hb : coerceColumnRows cols fld b with
      | error e =>
        have hab : coerceColumnRows cols fld (a ++ b) = .error e := by
          rw [coerceColumnRows_append, ha, hb]
        simp only [coerceRows, ha, hb, hab]
        cases coerceRows rest cols xs with
        | error e' => cases e; cases e'; rfl
        | ok xs' => rfl
      | ok ys =>
        have hab : coerceColumnRows cols fld (a ++ b) = .ok (xs ++ ys) := by
          rw [coerceColumnRows_append, ha, hb]
        simp only [coerceRows, ha, hb, hab]
        rw [ih]

lemma yearFilterAt_append (lo hi : Int) (i : Nat) (a b : List Row) :
    yearFilterAt lo hi i (a ++ b) = yearFilterAt lo hi i a ++ yearFilterAt lo hi i b := by
  simp [yearFilterAt, List.map_append, List.filter_append]

lemma yearFilterRows_fst_append (yf : Option (Int × Int)) (cols : List String)
    (a b : List Row) :
    (yearFilterRows yf cols (a ++ b)).1 =
      (yearFilterRows yf cols a).1 ++ (yearFilterRows yf cols b).1 := by
  cases yf with
  | none => rfl
  | some p =>
    cases p with
    | mk lo hi =>
      simp only [yearFilterRows]
      cases colIdx cols "collision_year" with
      | none => rfl
      | some i => simp [yearFilterAt_append]

lemma yearFilterRows_nil (yf : Option (Int × Int)) (cols : List String) :
    (yearFilterRows yf cols []).1 = [] := by
  cases yf with
  | none => rfl
  | some p =>
    cases p with
    | mk lo hi =>
      simp only [yearFilterRows]
      cases colIdx cols "collision_year" with
      | none => rfl
      | some i => simp [yearFilterAt]

lemma convertGo_append (schema : Schema) (yf : Option (Int × Int))
    (sizeMB : List Row → ℚ) (a b : List Chunk) (st : ConvState) :
    convertGo schema yf sizeMB st (a ++ b) =
      match convertGo schema yf sizeMB st a with
      | .error e => .error e
      | .ok st1 => convertGo schema yf sizeMB st1 b := by
  induction a generalizing st with
  | nil => simp [convertGo]
  | cons c cs ih =>
    simp only [List.cons_append, convertGo]
    cases processChunk schema yf sizeMB st c with
    | error st' => rfl
    | ok st' => exact ih st'

lemma writtenRows_filteredRows (st : ConvState) (n : Nat) :
    writtenRows { st with filteredRows := n } = writtenRows st := rfl

/-- The chunk step, on success, appends to the persisted rows exactly the
coerced survivors of the chunk's year filter. -/
lemma processChunk_ok_written {schema : Schema} {yf : Option (Int × Int)}
    {sizeMB : List Row → ℚ} {st : ConvState} {c : Chunk} {st' : ConvState}
    (h : processChunk schema yf sizeMB st c = .ok st') :
    ∃ exp, coerceRows schema c.cols (yearFilterRows yf c.cols c.rows).1 = .ok exp ∧
      writtenRows st' = writtenRows st ++ exp := by
  simp only [processChunk] at h
  split at h
  case isTrue hskip =>
    injection h with h
    subst h
    exact ⟨[], by rw [hskip.2.2, coerceRows_nil], by simp [writtenRows]⟩
  case isFalse hskip =>
    simp only [writeChunk] at h
    cases hco : coerceRows schema c.cols (yearFilterRows yf c.cols c.rows).1 with
    | error e => rw [hco] at h; exact absurd h (by simp)
    | ok rows2 =>
      rw [hco] at h
      refine ⟨rows2, rfl, ?_⟩
      simp only at h
      cases hcur : st.current with
      | none =>
        rw [hcur] at h
        simp only at h
        split at h <;>
          (injection h with h; subst h;
           simp [writtenRows, hcur, concatRows_append, concatRows])
      | some pr =>
        rw [hcur] at h
        simp only at h
        split at h <;>
          (injection h with h; subst h;
           simp [writtenRows, hcur, concatRows_append, concatRows])

/-- Rows of a chunk stream, concatenated in stream order. -/
def allRows (chunks : List Chunk) : List Row :=
  concatRows (chunks.map Chunk.rows)

/-- Inductive core of the round-trip property: a successful run of the
chunk loop appends to the persisted rows exactly the coerced survivors of
the year filter applied to the whole remaining stream. -/
lemma convertGo_ok_written {schema : Schema} {yf : Option (Int × Int)}
    {sizeMB : List Row → ℚ} {cols : List String} :
    ∀ {chunks : List Chunk} {st st' : ConvState},
      (∀ ch ∈ chunks, ch.cols = cols) →
      convertGo schema yf sizeMB st chunks = .ok st' →
      ∃ exp, coerceRows schema cols (yearFilterRows yf cols (allRows chunks)).1 = .ok exp ∧
        writtenRows st' = writtenRows st ++ exp := by
  intro chunks
  induction chunks with
  | nil =>
    intro st st' _ h
    injection h with h
    subst h
    exact ⟨[], by rw [show allRows [] = [] from rfl, yearFilterRows_nil, coerceRows_nil],
      by simp⟩
  | cons c cs ih =>
    intro st st' hcols h
    simp only [convertGo] at h
    cases hp : processChunk schema yf sizeMB st c with
    | error e => rw [hp] at h; exact absurd h (by simp)
    | ok st1 =>
      rw [hp] at h
      obtain ⟨e1, he1, hw1⟩ := processChunk_ok_written hp
      obtain ⟨e2, he2, hw2⟩ := ih (fun ch hch => hcols ch (List.mem_cons_of_mem _ hch)) h
      have hc : c.cols = cols := hcols c (List.mem_cons_self _ _)
      rw [hc] at he1
      have hall : allRows (c :: cs) = c.rows ++ allRows cs := rfl
      refine ⟨e1 ++ e2, ?_, ?_⟩
      · rw [hall, yearFilterRows_fst_append, coerceRows_append, he1, he2]
      · rw [hw2, hw1, List.append_assoc]

lemma finalize_concat (st : ConvState) :
    concatRows ((finalizeState st).outputFiles.map Prod.snd) = writtenRows st := by
  unfold finalizeState writtenRows
  cases st.current with
  | none => simp
  | some pr => simp [concatRows_append, concatRows]

/-- Core round-trip fact shared by several results: a successful chunked
conversion produces shards whose concatenation is the coerced filter
survivors of the whole stream. -/
lemma convert_ok_concat {schema : Schema} {yf : Option (Int × Int)}
    {sizeMB : List Row → ℚ} {cols : List String} {chunks : List Chunk}
    {files : List (Nat × List Row)}
    (hcols : ∀ ch ∈ chunks, ch.cols = cols)
    (hok : convert_large_csv_chunked schema yf sizeMB chunks = .ok files) :
    coerceRows schema cols (yearFilterRows yf cols (allRows chunks)).1 =
      .ok (concatRows (files.map Prod.snd)) := by
  unfold convert_large_csv_chunked at hok
  cases hgo : convertGo schema yf sizeMB initState chunks with
  | error st => rw [hgo] at hok; exact absurd hok (by simp)
  | ok st =>
    rw [hgo] at hok
    injection hok with hok
    obtain ⟨exp, hexp, hw⟩ := convertGo_ok_written hcols hgo
    have hinit : writtenRows initState = [] := rfl
    rw [hinit, List.nil_append] at hw
    rw [hexp, ← hok, finalize_concat, hw]

/-- C1 (round-trip): a successful chunked conversion produces shards whose
concatenation, in shard order, is exactly the year-filter survivors of the
whole input stream coerced under the Master Schema — no row lost,
duplicated or reordered. -/
theorem chunked_roundtrip {schema : Schema} {yf : Option (Int × Int)}
    {sizeMB : List Row → ℚ} {cols : List String} {chunks : List Chunk}
    {files : List (Nat × List Row)}
    (hcols : ∀ ch ∈ chunks, ch.cols = cols)
    (hok : convert_large_csv_chunked schema yf sizeMB chunks = .ok files) :
    coerceRows schema cols (yearFilterRows yf cols (allRows chunks)).1 =
      .ok (concatRows (files.map Prod.snd)) :=
  convert_ok_concat hcols hok

/-- Witness: a concrete three-row chunk with the (2015, 2024) filter; the
two shards' concatenation equals the coerced filter survivors. -/
theorem chunked_roundtrip_witness :
    coerceRows [⟨"collision_year", .int⟩, ⟨"speed", .float⟩]
        ["collision_year", "speed"]
        (yearFilterRows (some (2015, 2024)) ["collision_year", "speed"]
          (allRows [⟨["collision_year", "speed"],
            [[.text "2016", .text "30"], [.text "1999", .text "abc"],
             [.text "2020", .text "50"]]⟩])).1 =
      .ok (concatRows
        (([(1, [[.intv 2016, .num 30], [.intv 2020, .num 50]])] :
            List (Nat × List Row)).map Prod.snd)) :=
  @chunked_roundtrip [⟨"collision_year", .int⟩, ⟨"speed", .float⟩]
    (some (2015, 2024)) (fun _ => 1) ["collision_year", "speed"]
    [⟨["collision_year", "speed"],
      [[.text "2016", .text "30"], [.text "1999", .text "abc"],
       [.text "2020", .text "50"]]⟩]
    [(1, [[.intv 2016, .num 30], [.intv 2020, .num 50]])]
    (by decide) (by decide)

/-- Numbering invariant of the writer loop: recorded part numbers are
`1, 2, …, k` in order, the next part number is `k+1`, and the open shard
(at most one exists, by the shape of `ConvState.current`) carries the
current part number. -/
def NumInv (st : ConvState) : Prop :=
  st.outputFiles.map Prod.fst = List.range' 1 st.outputFiles.length ∧
  st.partNum = st.outputFiles.length + 1 ∧
  ∀ pr, st.current = some pr → pr.1 = st.partNum

lemma numInv_init : NumInv initState :=
  ⟨rfl, rfl, fun pr h => by simp [initState] at h⟩

lemma range'_one_concat (n : Nat) : List.range' 1 (n + 1) = List.range' 1 n ++ [n + 1] := by
  rw [List.range'_concat 1 n]
  simp [Nat.add_comm]

lemma numInv_step {schema : Schema} {yf : Option (Int × Int)} {sizeMB : List Row → ℚ}
    {st : ConvState} {c : Chunk} {st' : ConvState}
    (h : processChunk schema yf sizeMB st c = .ok st') (hinv : NumInv st) :
    NumInv st' := by
  obtain ⟨hmap, hpart, hcur⟩ := hinv
  simp only [processChunk] at h
  split at h
  case isTrue =>
    injection h with h
    subst h
    exact ⟨hmap, hpart, hcur⟩
  case isFalse =>
    simp only [writeChunk] at h
    cases hco : coerceRows schema c.cols (yearFilterRows yf c.cols c.rows).1 with
    | error e => rw [hco] at h; exact absurd h (by simp)
    | ok rows2 =>
      rw [hco] at h
      cases hc : st.current with
      | none =>
        rw [hc] at h
        simp only at h
        split at h <;> injection h with h <;> subst h
        · refine ⟨?_, ?_, fun pr hpr => by simp at hpr⟩
          · simp only [List.map_append, hmap, hpart, List.length_append,
              List.map_cons, List.map_nil, List.length_cons, List.length_nil]
            rw [range'_one_concat]
          · simp [hpart]
        · exact ⟨hmap, hpart, fun pr hpr => by
            simp only [Option.some.injEq] at hpr
            simp [← hpr]⟩
      | some pr0 =>
        rw [hc] at h
        simp only at h
        have hpr0 : pr0.1 = st.outputFiles.length + 1 := by rw [hcur pr0 hc, hpart]
        split at h <;> injection h with h <;> subst h
        · refine ⟨?_, ?_, fun pr hpr => by simp at hpr⟩
          · simp only [List.map_append, hmap, hpr0, List.length_append,
              List.map_cons, List.map_nil, List.length_cons, List.length_nil]
            rw [range'_one_concat]
          · simp [hpr0, hpart]
        · exact ⟨hmap, hpart, fun pr hpr => by
            simp only [Option.some.injEq] at hpr
            rw [← hpr, hpr0, hpart]⟩

lemma numInv_run {schema : Schema} {yf : Option (Int × Int)} {sizeMB : List Row → ℚ} :
    ∀ {chunks : List Chunk} {st st' : ConvState},
      convertGo schema yf sizeMB st chunks = .ok st' → NumInv st → NumInv st' := by
  intro chunks
  induction chunks with
  | nil => intro st st' h hinv; injection h with h; subst h; exact hinv
  | cons c cs ih =>
    intro st st' h hinv
    simp only [convertGo] at h
    cases hp : processChunk schema yf sizeMB st c with
    | error e => rw [hp] at h; exact absurd h (by simp)
    | ok st1 => rw [hp] at h; exact ih h (numInv_step hp hinv)

/-- C10: the shard list returned by a successful chunked conversion is
numbered consecutively `1, 2, …, n` in increasing order (each entry having
been recorded exactly when its writer was closed, and the state carrying
at most one open writer by construction). -/
theorem output_parts_consecutive {schema : Schema} {yf : Option (Int × Int)}
    {sizeMB : List Row → ℚ} {chunks : List Chunk} {files : List (Nat × List Row)}
    (hok : convert_large_csv_chunked schema yf sizeMB chunks = .ok files) :
    files.map Prod.fst = List.range' 1 files.length := by
  unfold convert_large_csv_chunked at hok
  cases hgo : convertGo schema yf sizeMB initState chunks with
  | error st => rw [hgo] at hok; exact absurd hok (by simp)
  | ok st =>
    rw [hgo] at hok
    injection hok with hok
    obtain ⟨hmap, hpart, hcur⟩ := numInv_run hgo numInv_init
    subst hok
    unfold finalizeState
    cases hc : st.current with
    | none => exact hmap
    | some pr =>
      have hpr1 : pr.1 = st.outputFiles.length + 1 := by rw [hcur pr hc, hpart]
      simp only [List.map_append, hmap, hpr1, List.length_append, List.map_cons,
        List.map_nil, List.length_cons, List.length_nil]
      rw [range'_one_concat]

/-- Witness for C10: a two-shard run returns part numbers `[1, 2]`. -/
theorem output_parts_consecutive_witness :
    (([(1, [[Cell.intv 1], [Cell.intv 2]]), (2, [[Cell.intv 3]])] :
        List (Nat × List Row)).map Prod.fst) =
      List.range' 1 2 :=
  @output_parts_consecutive [⟨"a", .int⟩] none
    (fun rows => if 2 ≤ rows.length then 50 else 1)
    [⟨["a"], [[.text "1"]]⟩, ⟨["a"], [[.text "2"]]⟩, ⟨["a"], [[.text "3"]]⟩]
    [(1, [[Cell.intv 1], [Cell.intv 2]]), (2, [[Cell.intv 3]])]
    (by decide)

/-- Size invariant: an open shard's measured size is still strictly below
the rollover trigger (otherwise the step that wrote it would have sealed
it). -/
def SizeInv (sizeMB : List Row → ℚ) (st : ConvState) : Prop :=
  ∀ pr, st.current = some pr → sizeMB pr.2 < rolloverTriggerMB

lemma sizeInv_init (sizeMB : List Row → ℚ) : SizeInv sizeMB initState :=
  fun pr h => by simp [initState] at h

/-- C4 (rollover): after any accepted batch of a run, (i) no open shard
sits at or above the 90% trigger — a shard that reached it was sealed
within the very step that wrote it, before any further batch; (ii) the
sealed-shard list only ever grows by appending, so a sealed shard is never
written to again; (iii) when this step does seal, the sealed shard is
recorded at the end of the list with its trigger-reaching contents, the
writer is cleared, and the next shard gets the next sequence number. -/
theorem rollover_seals_shard {schema : Schema} {yf : Option (Int × Int)}
    {sizeMB : List Row → ℚ} {st : ConvState} {c : Chunk} {st' : ConvState}
    (h : processChunk schema yf sizeMB st c = .ok st') (hinv : SizeInv sizeMB st) :
    SizeInv sizeMB st' ∧
    (∃ tail, st'.outputFiles = st.outputFiles ++ tail) ∧
    (st'.outputFiles ≠ st.outputFiles →
      ∃ pr, st'.outputFiles = st.outputFiles ++ [pr] ∧
        rolloverTriggerMB ≤ sizeMB pr.2 ∧ st'.current = none ∧
        st'.partNum = pr.1 + 1) := by
  simp only [processChunk] at h
  split at h
  case isTrue =>
    injection h with h
    subst h
    exact ⟨hinv, ⟨[], by simp⟩, fun hne => absurd rfl hne⟩
  case isFalse =>
    simp only [writeChunk] at h
    cases hco : coerceRows schema c.cols (yearFilterRows yf c.cols c.rows).1 with
    | error e => rw [hco] at h; exact absurd h (by simp)
    | ok rows2 =>
      rw [hco] at h
      cases hc : st.current with
      | none =>
        rw [hc] at h
        simp only at h
        split at h <;> injection h with h <;> subst h
        case isTrue hroll =>
          refine ⟨fun pr hpr => by simp at hpr, ⟨[(st.partNum, rows2)], by simp⟩, ?_⟩
          intro _
          exact ⟨(st.partNum, rows2), by simp, by simpa using hroll, rfl, rfl⟩
        case isFalse hroll =>
          refine ⟨fun pr hpr => ?_, ⟨[], by simp⟩, fun hne => absurd rfl hne⟩
          simp only [Option.some.injEq] at hpr
          rw [← hpr]
          simpa using lt_of_not_le hroll
      | some pr0 =>
        rw [hc] at h
        simp only at h
        split at h <;> injection h with h <;> subst h
        case isTrue hroll =>
          refine ⟨fun pr hpr => by simp at hpr,
            ⟨[(pr0.1, pr0.2 ++ rows2)], by simp⟩, ?_⟩
          intro _
          exact ⟨(pr0.1, pr0.2 ++ rows2), by simp, by simpa using hroll, rfl, rfl⟩
        case isFalse hroll =>
          refine ⟨fun pr hpr => ?_, ⟨[], by simp⟩, fun hne => absurd rfl hne⟩
          simp only [Option.some.injEq] at hpr
          rw [← hpr]
          simpa using lt_of_not_le hroll

/-- Run-level preservation of the size invariant along the chunk loop. -/
lemma sizeInv_run {schema : Schema} {yf : Option (Int × Int)} {sizeMB : List Row → ℚ} :
    ∀ {chunks : List Chunk} {st st' : ConvState},
      convertGo schema yf sizeMB st chunks = .ok st' → SizeInv sizeMB st →
      SizeInv sizeMB st' := by
  intro chunks
  induction chunks with
  | nil => intro st st' h hinv; injection h with h; subst h; exact hinv
  | cons c cs ih =>
    intro st st' h hinv
    simp only [convertGo] at h
    cases hp : processChunk schema yf sizeMB st c with
    | error e => rw [hp] at h; exact absurd h (by simp)
    | ok st1 => rw [hp] at h; exact ih h (rollover_seals_shard hp hinv).1

/-- Witness for C4: a concrete step whose write reaches the trigger seals
part 1 and hands sequence number 2 to the next shard. -/
theorem rollover_seals_shard_witness :
    SizeInv (fun _ => (50 : ℚ))
        { outputFiles := [(1, [[Cell.intv 7]])], partNum := 2, current := none,
          totalRows := 1, filteredRows := 0 } ∧
      (∃ tail,
        ([(1, [[Cell.intv 7]])] : List (Nat × List Row)) = [] ++ tail) ∧
      (([(1, [[Cell.intv 7]])] : List (Nat × List Row)) ≠ [] →
        ∃ pr, ([(1, [[Cell.intv 7]])] : List (Nat × List Row)) = [] ++ [pr] ∧
          rolloverTriggerMB ≤ (fun (_ : List Row) => (50 : ℚ)) pr.2 ∧
          (none : Option (Nat × List Row)) = none ∧ 2 = pr.1 + 1) :=
  @rollover_seals_shard [⟨"a", .int⟩] none (fun _ => (50 : ℚ)) initState
    ⟨["a"], [[.text "7"]]⟩
    { outputFiles := [(1, [[Cell.intv 7]])], partNum := 2, current := none,
      totalRows := 1, filteredRows := 0 }
    (by decide) (sizeInv_init _)

/-- An exception inside a chunk step (raised during schema coercion, before
any write of that chunk) leaves the sealed-shard list and the open writer
exactly as they were. -/
lemma processChunk_error_state {schema : Schema} {yf : Option (Int × Int)}
    {sizeMB : List Row → ℚ} {st : ConvState} {c : Chunk} {stE : ConvState}
    (h : processChunk schema yf sizeMB st c = .error stE) :
    stE.outputFiles = st.outputFiles ∧ stE.current = st.current := by
  simp only [processChunk] at h
  split at h
  case isTrue => exact absurd h (by simp)
  case isFalse =>
    simp only [writeChunk] at h
    cases hco : coerceRows schema c.cols (yearFilterRows yf c.cols c.rows).1 with
    | error e =>
      rw [hco] at h
      injection h with h
      subst h
      exact ⟨rfl, rfl⟩
    | ok rows2 =>
      rw [hco] at h
      simp only at h
      split at h <;> exact absurd h (by simp)

/-- C5 (failure cleanup): if processing chunk `c` raises after the prefix
`pre` was converted successfully, the whole conversion re-raises with the
open shard closed by the cleanup handler (recorded in `closedOpenShard`)
and with exactly the shards sealed before the failure still on disk; the
remaining chunks are never processed. -/
theorem error_closes_open_shard {schema : Schema} {yf : Option (Int × Int)}
    {sizeMB : List Row → ℚ} {pre : List Chunk} {c : Chunk} {rest : List Chunk}
    {st1 stE : ConvState}
    (hpre : convertGo schema yf sizeMB initState pre = .ok st1)
    (herr : processChunk schema yf sizeMB st1 c = .error stE) :
    convert_large_csv_chunked schema yf sizeMB (pre ++ c :: rest) =
      .error { sealedFiles := st1.outputFiles, closedOpenShard := st1.current } := by
  obtain ⟨hout, hcur⟩ := processChunk_error_state herr
  unfold convert_large_csv_chunked
  rw [convertGo_append, hpre]
  simp only [convertGo]
  rw [herr]
  simp [hout, hcur]

/-- Witness for C5: chunk 1 opens shard 1; chunk 2 holds the value `3.7`
in an integer-typed column, so `astype('Int64')` raises; the error result
carries no sealed shard and the closed open shard 1. -/
theorem error_closes_open_shard_witness :
    convert_large_csv_chunked [⟨"a", .int⟩] none (fun _ => 1)
        ([⟨["a"], [[.text "1"]]⟩] ++ ⟨["a"], [[.text "3.7"]]⟩ :: []) =
      .error { sealedFiles := [],
               closedOpenShard := some (1, [[Cell.intv 1]]) } :=
  @error_closes_open_shard [⟨"a", .int⟩] none (fun _ => 1)
    [⟨["a"], [[.text "1"]]⟩] ⟨["a"], [[.text "3.7"]]⟩ []
    { outputFiles := [], partNum := 1, current := some (1, [[Cell.intv 1]]),
      totalRows := 1, filteredRows := 0 }
    { outputFiles := [], partNum := 1, current := some (1, [[Cell.intv 1]]),
      totalRows := 1, filteredRows := 0 }
    (by decide) (by decide)

/-- Counterexample to C2: a one-row chunk whose `collision_year` is the
unparseable text `"abc"`, under the (2015, 2024) filter, is rejected — the
conversion succeeds but emits no shard and no row at all (the NaN year
fails the range mask on both sides), and the row is counted as filtered. -/
theorem unparseable_year_dropped_counterexample :
    convert_large_csv_chunked [⟨"collision_year", .int⟩] (some (2015, 2024))
        (fun _ => 1) [⟨["collision_year"], [[.text "abc"]]⟩] = .ok [] ∧
      yearFilterRows (some (2015, 2024)) ["collision_year"] [[.text "abc"]] =
        ([], 1) := by
  exact ⟨by decide, by decide⟩

/-- Every survivor of the year-filter step carries a parseable numeric year
within the inclusive bounds (the NaN year of an unparseable value fails the
mask, so such rows never survive). -/
lemma yearFilterAt_mem_year (lo hi : Int) (i : Nat) (rows : List Row) :
    ∀ r ∈ yearFilterAt lo hi i rows,
      ∃ q, r.getD i .missing = .num q ∧ (lo : ℚ) ≤ q ∧ q ≤ (hi : ℚ) := by
  intro r hr
  obtain ⟨-, hm⟩ := List.mem_filter.mp hr
  cases hcell : r.getD i .missing with
  | num q =>
    rw [hcell] at hm
    simp only [yearMask, Bool.and_eq_true, decide_eq_true_eq] at hm
    exact ⟨q, rfl, hm.1, hm.2⟩
  | missing => rw [hcell] at hm; simp [yearMask] at hm
  | text s => rw [hcell] at hm; simp [yearMask] at hm
  | intv n => rw [hcell] at hm; simp [yearMask] at hm

/-- C2 as amended: a malformed year value is coerced to the missing marker
silently — the filter step is a total function and never raises — but a
row surviving the filter always carries a parseable year within the
inclusive bounds, so a row whose year is unparseable (missing after
coercion) is dropped by the mask, not kept. -/
theorem year_coercion_silent_but_filters (lo hi : Int) (i : Nat) (rows : List Row) :
    (∀ s, parseNumeric s = none → toNumericCell (.text s) = .missing) ∧
    (∀ r ∈ yearFilterAt lo hi i rows,
      ∃ q, r.getD i .missing = .num q ∧ (lo : ℚ) ≤ q ∧ q ≤ (hi : ℚ)) := by
  constructor
  · intro s hs
    simp [toNumericCell, hs]
  · exact yearFilterAt_mem_year lo hi i rows

/-- Witness for the amended C2: `"abc"` coerces silently to missing, and
the surviving row of a concrete filtered chunk carries year 2016. -/
theorem year_coercion_silent_but_filters_witness :
    toNumericCell (.text "abc") = .missing ∧
    ∃ q, ([Cell.num 2016] : Row).getD 0 .missing = .num q ∧
      (2015 : ℚ) ≤ q ∧ q ≤ (2024 : ℚ) :=
  ⟨(year_coercion_silent_but_filters 2015 2024 0 []).1 "abc" (by decide),
   (year_coercion_silent_but_filters 2015 2024 0 [[.text "2016"]]).2
     [Cell.num 2016] (by decide)⟩

/-- A year cell "within the inclusive range": a float with value in range
or a nullable-Int64 integer in range (the two forms the coercion step can
leave the filtered year column in). -/
def yearInRange (lo hi : Int) : Cell → Prop
  | .num q => (lo : ℚ) ≤ q ∧ q ≤ (hi : ℚ)
  | .intv n => lo ≤ n ∧ n ≤ hi
  | _ => False

lemma yearInRange_lt_length {lo hi : Int} {r : Row} {i : Nat}
    (h : yearInRange lo hi (r.getD i .missing)) : i < r.length := by
  by_contra hlen
  rw [List.getD_eq_getElem?_getD, List.getElem?_eq_none (Nat.le_of_not_lt hlen)] at h
  exact h

lemma coerceCell_preserves_year {lo hi : Int} {t : PAType} {c v : Cell}
    (hco : coerceCell t c = .ok v) (h : yearInRange lo hi c) :
    yearInRange lo hi v := by
  cases t with
  | str =>
    injection hco with hco
    rw [← hco]; exact h
  | float =>
    injection hco with hco
    cases c with
    | num q => rw [← hco]; exact h
    | intv n =>
      rw [← hco]
      simp only [toNumericCell, yearInRange]
      exact ⟨by exact_mod_cast h.1, by exact_mod_cast h.2⟩
    | missing => exact absurd h (by simp [yearInRange])
    | text s => exact absurd h (by simp [yearInRange])
  | int =>
    cases c with
    | num q =>
      simp only [coerceCell, toNumericCell, astypeInt64] at hco
      by_cases hden : q.den = 1
      · rw [if_pos hden] at hco
        injection hco with hco
        rw [← hco]
        have hq : (q.num : ℚ) = q := Rat.coe_int_num_of_den_eq_one hden
        refine ⟨?_, ?_⟩
        · have := h.1; rw [← hq] at this; exact_mod_cast this
        · have := h.2; rw [← hq] at this; exact_mod_cast this
      · rw [if_neg hden] at hco
        exact absurd hco (by simp)
    | intv n =>
      simp only [coerceCell, toNumericCell, astypeInt64, Rat.intCast_den,
        if_pos] at hco
      injection hco with hco
      rw [← hco]
      simpa [yearInRange, Rat.intCast_num] using h
    | missing => exact absurd h (by simp [yearInRange])
    | text s => exact absurd h (by simp [yearInRange])

lemma coerceColumnRows_preserves_year {cols : List String} {fld : SchemaField}
    {rows rows' : List Row} {lo hi : Int} {i : Nat}
    (hidx : colIdx cols "collision_year" = some i)
    (hco : coerceColumnRows cols fld rows = .ok rows')
    (hall : ∀ r ∈ rows, yearInRange lo hi (r.getD i .missing)) :
    ∀ r' ∈ rows', yearInRange lo hi (r'.getD i .missing) := by
  intro r' hr'
  unfold coerceColumnRows at hco
  cases hj : colIdx cols fld.name with
  | none =>
    rw [hj] at hco
    injection hco with hco
    rw [← hco] at hr'
    exact hall r' hr'
  | some j =>
    rw [hj] at hco
    cases ht : fld.type with
    | str =>
      rw [ht] at hco
      injection hco with hco
      rw [← hco] at hr'
      exact hall r' hr'
    | int =>
      rw [ht] at hco
      obtain ⟨r, hr, v, hv, hset⟩ := mapCells_ok_forall hco r' hr'
      by_cases hname : fld.name = "collision_year"
      · rw [hname, hidx] at hj
        injection hj with hj
        subst hj
        subst hset
        rw [getD_set_self (yearInRange_lt_length (hall r hr))]
        exact coerceCell_preserves_year hv (hall r hr)
      · have hij : i ≠ j :=
          colIdx_ne hidx hj (fun hcy => hname hcy.symm)
        subst hset
        rw [getD_set_ne hij]
        exact hall r hr
    | float =>
      rw [ht] at hco
      obtain ⟨r, hr, v, hv, hset⟩ := mapCells_ok_forall hco r' hr'
      by_cases hname : fld.name = "collision_year"
      · rw [hname, hidx] at hj
        injection hj with hj
        subst hj
        subst hset
        rw [getD_set_self (yearInRange_lt_length (hall r hr))]
        exact coerceCell_preserves_year hv (hall r hr)
      · have hij : i ≠ j :=
          colIdx_ne hidx hj (fun hcy => hname hcy.symm)
        subst hset
        rw [getD_set_ne hij]
        exact hall r hr

lemma coerceRows_preserves_year {schema : Schema} {cols : List String}
    {lo hi : Int} {i : Nat} (hidx : colIdx cols "collision_year" = some i) :
    ∀ {rows rows' : List Row}, coerceRows schema cols rows = .ok rows' →
      (∀ r ∈ rows, yearInRange lo hi (r.getD i .missing)) →
      ∀ r' ∈ rows', yearInRange lo hi (r'.getD i .missing) := by
  induction schema with
  | nil =>
    intro rows rows' hco hall
    injection hco with hco
    rw [← hco]
    exact hall
  | cons fld rest ih =>
    intro rows rows' hco hall
    simp only [coerceRows] at hco
    cases hc1 : coerceColumnRows cols fld rows with
    | error e => rw [hc1] at hco; exact absurd hco (by simp)
    | ok rows1 =>
      rw [hc1] at hco
      exact ih hco (coerceColumnRows_preserves_year hidx hc1 hall)

lemma mem_concatRows {r : Row} : ∀ {ls : List (List Row)} {l : List Row},
    l ∈ ls → r ∈ l → r ∈ concatRows ls := by
  intro ls
  induction ls with
  | nil => intro l hl _; simp at hl
  | cons x xs ih =>
    intro l hl hr
    rcases List.mem_cons.mp hl with h | h
    · subst h
      exact List.mem_append_left _ hr
    · exact List.mem_append_right _ (ih h hr)

/-- C3: with the (2015, 2024) year filter configured and a `collision_year`
column present (at index `i` of the shared header), every row of every
shard of a successful conversion carries a year value inside the inclusive
range `[2015, 2024]`; no row with a year outside the range (or no parseable
year at all) appears in any shard. -/
theorem year_filter_output_in_range {schema : Schema} {sizeMB : List Row → ℚ}
    {cols : List String} {chunks : List Chunk} {files : List (Nat × List Row)}
    {i : Nat}
    (hcols : ∀ ch ∈ chunks, ch.cols = cols)
    (hidx : colIdx cols "collision_year" = some i)
    (hok : convert_large_csv_chunked schema (some (2015, 2024)) sizeMB chunks =
      .ok files) :
    ∀ pr ∈ files, ∀ r ∈ pr.2, yearInRange 2015 2024 (r.getD i .missing) := by
  intro pr hpr r hr
  have hcc := convert_ok_concat hcols hok
  have hfst : (yearFilterRows (some (2015, 2024)) cols (allRows chunks)).1 =
      yearFilterAt 2015 2024 i (allRows chunks) := by
    simp [yearFilterRows, hidx]
  rw [hfst] at hcc
  have hbase : ∀ r0 ∈ yearFilterAt 2015 2024 i (allRows chunks),
      yearInRange 2015 2024 (r0.getD i .missing) := by
    intro r0 hr0
    obtain ⟨q, hq, h1, h2⟩ := yearFilterAt_mem_year 2015 2024 i (allRows chunks) r0 hr0
    rw [hq]
    exact ⟨h1, h2⟩
  exact coerceRows_preserves_year hidx hcc hbase r
    (mem_concatRows (List.mem_map_of_mem Prod.snd hpr) hr)

/-- Witness for C3: in a concrete filtered conversion, the surviving row's
year cell holds 2016 ∈ [2015, 2024]. -/
theorem year_filter_output_in_range_witness :
    yearInRange 2015 2024
      (([Cell.intv 2016, Cell.num 30] : Row).getD 0 .missing) :=
  @year_filter_output_in_range [⟨"collision_year", .int⟩, ⟨"speed", .float⟩]
    (fun _ => 1) ["collision_year", "speed"]
    [⟨["collision_year", "speed"],
      [[.text "2016", .text "30"], [.text "1999", .text "abc"]]⟩]
    [(1, [[.intv 2016, .num 30]])] 0
    (by decide) (by decide) (by decide)
    (1, [[.intv 2016, .num 30]]) (by decide)
    [Cell.intv 2016, Cell.num 30] (by decide)

/-- C6: the full per-type coercion behaviour of the schema loop.
Integer-typed columns go through numeric coercion into the nullable-Int64
representation: a parseable integral value becomes the corresponding Int64
integer, a missing or unparseable value becomes the Int64 missing marker
without raising, and the one input outside the claim's error policy — a
parseable but non-integral value such as `"3.7"` — makes `astype('Int64')`
raise. Floating-typed columns go through numeric coercion keeping missing
values: a parseable value becomes that float, a missing or unparseable
value becomes NaN, never raising. String-typed columns pass through
unchanged as text. -/
theorem schema_coercion_by_type (s : String) (hs : parseNumeric s = none) :
    coerceCell .int (.text s) = .ok .missing ∧
    coerceCell .float (.text s) = .ok .missing ∧
    coerceCell .int .missing = .ok .missing ∧
    coerceCell .float .missing = .ok .missing ∧
    (∀ t q, parseNumeric t = some q →
      coerceCell .float (.text t) = .ok (.num q)) ∧
    (∀ t q, parseNumeric t = some q → q.den = 1 →
      coerceCell .int (.text t) = .ok (.intv q.num)) ∧
    (∀ t q, parseNumeric t = some q → q.den ≠ 1 →
      coerceCell .int (.text t) = .error ()) ∧
    (∀ c, coerceCell .str c = .ok c) := by
  refine ⟨?_, ?_, rfl, rfl, ?_, ?_, ?_, fun c => rfl⟩
  · simp [coerceCell, toNumericCell, astypeInt64, hs]
  · simp [coerceCell, toNumericCell, hs]
  · intro t q hq
    simp [coerceCell, toNumericCell, hq]
  · intro t q hq hden
    simp [coerceCell, toNumericCell, astypeInt64, hq, hden]
  · intro t q hq hden
    simp [coerceCell, toNumericCell, astypeInt64, hq, hden]

/-- Witness for C6: the unparseable `"abc"` becomes missing in an integer
column; the integral `"7"` becomes the Int64 integer 7; the non-integral
`"3.7"` raises; the parseable `"30"` becomes the float 30. -/
theorem schema_coercion_by_type_witness :
    coerceCell .int (.text "abc") = .ok .missing ∧
    coerceCell .int (.text "7") = .ok (.intv ((7 : ℚ)).num) ∧
    coerceCell .int (.text "3.7") = .error () ∧
    coerceCell .float (.text "30") = .ok (.num 30) :=
  ⟨(schema_coercion_by_type "abc" (by decide)).1,
   (schema_coercion_by_type "abc" (by decide)).2.2.2.2.2.1 "7" 7
     (by decide) (by decide),
   (schema_coercion_by_type "abc" (by decide)).2.2.2.2.2.2.1 "3.7"
     (Rat.divInt 37 10) (by decide) (by decide),
   (schema_coercion_by_type "abc" (by decide)).2.2.2.2.1 "30" 30 (by decide)⟩

/-- Events the outer loop of `main` prints for abnormal situations: a
missing-input warning (line 208) and a caught per-file error with its
traceback (lines 222-225). -/
inductive LogEvent
  | warnMissing (path : String)
  | errorTrace (path : String)
deriving DecidableEq, Repr

/-- The per-file loop of `main` (lines 206-225) over one category's file
list: `pathExists` is the `os.path.exists` oracle and `conv` the
size-dispatched conversion (`convert_large_csv_chunked` or
`convert_small_csv`), abstracted as an oracle that either returns the
produced output paths or raises. A missing file is skipped with a warning;
a raising conversion is caught, logged, and the loop continues; either way
the file contributes no output paths. -/
def mainLoop (pathExists : String → Bool) (conv : String → Except Unit (List String)) :
    List String → List String × List LogEvent
  | [] => ([], [])
  | f :: fs =>
    let rest := mainLoop pathExists conv fs
    if pathExists f then
      match conv f with
      | .ok outs => (outs ++ rest.1, rest.2)
      | .error _ => (rest.1, .errorTrace f :: rest.2)
    else (rest.1, .warnMissing f :: rest.2)

/-- C7: the outer loop never propagates a per-file failure. A missing
input contributes a warning and zero output files while the remaining
files are still processed; a file whose conversion raises contributes a
logged traceback and zero output files while the remaining files are still
processed — in both cases the rest of the batch job runs exactly as it
would alone. -/
theorem main_contains_failures (pathExists : String → Bool)
    (conv : String → Except Unit (List String)) (f : String) (fs : List String) :
    (pathExists f = false →
      mainLoop pathExists conv (f :: fs) =
        ((mainLoop pathExists conv fs).1,
         .warnMissing f :: (mainLoop pathExists conv fs).2)) ∧
    (pathExists f = true → conv f = .error () →
      mainLoop pathExists conv (f :: fs) =
        ((mainLoop pathExists conv fs).1,
         .errorTrace f :: (mainLoop pathExists conv fs).2)) ∧
    (∀ outs, pathExists f = true → conv f = .ok outs →
      mainLoop pathExists conv (f :: fs) =
        (outs ++ (mainLoop pathExists conv fs).1,
         (mainLoop pathExists conv fs).2)) := by
  refine ⟨?_, ?_, ?_⟩
  · intro hmiss
    simp [mainLoop, hmiss]
  · intro hex herr
    simp [mainLoop, hex, herr]
  · intro outs hex hok
    simp [mainLoop, hex, hok]

/-- Witness for C7: a two-file batch where the first file is missing and
where the first file's conversion raises, each leaving the second file's
output intact. -/
theorem main_contains_failures_witness :
    mainLoop (fun p => p == "b.csv")
        (fun _ => .ok ["out.parquet"]) ["a.csv", "b.csv"] =
      (["out.parquet"], [.warnMissing "a.csv"]) ∧
    mainLoop (fun _ => true)
        (fun p => if p == "a.csv" then .error () else .ok ["out.parquet"])
        ["a.csv", "b.csv"] =
      (["out.parquet"], [.errorTrace "a.csv"]) := by
  constructor
  · rw [(main_contains_failures (fun p => p == "b.csv")
      (fun _ => .ok ["out.parquet"]) "a.csv" ["b.csv"]).1 (by decide)]
    decide
  · rw [(main_contains_failures (fun _ => true)
      (fun p => if p == "a.csv" then .error () else .ok ["out.parquet"])
      "a.csv" ["b.csv"]).2.1 (by decide) (by decide)]
    decide

/-- `num_splits = int(file_size_mb / MAX_SIZE_MB) + 1` (line 153): for the
nonnegative sizes a file can have, Python's truncating division is the
floor, computed here on the rational's numerator and denominator
(`MAX_SIZE_MB = 50`). -/
def numSplits (sizeMB : ℚ) : Nat :=
  sizeMB.num.toNat / (sizeMB.den * 50) + 1

/-- The split loop of lines 157-170: `i`-th shard takes rows
`[i*r, min((i+1)*r, len))`; the loop breaks at the first `i` with
`i*r >= len` and runs at most `k = num_splits` iterations. -/
def smallSplitGo (df : List Row) (r : Nat) : Nat → Nat → List (List Row)
  | 0, _ => []
  | k + 1, i =>
    if df.length ≤ i * r then []
    else
      (df.drop (i * r)).take (min ((i + 1) * r) df.length - i * r) ::
        smallSplitGo df r k (i + 1)

/-- Result of the small-file converter: one unsplit `<base>.parquet`, or a
list of `<base>_partNN.parquet` shards. -/
inductive SmallResult
  | single (rows : List Row)
  | split (shards : List (List Row))
deriving DecidableEq, Repr

/-- `convert_small_csv` (lines 125-172): write the whole frame as one file;
if its measured size `sizeMB` stays within `MAX_SIZE_MB` return it unsplit,
otherwise delete it and rewrite the rows as row-count shards with
`rows_per_split = len(df) // num_splits + 1`. -/
def convert_small_csv (df : List Row) (sizeMB : ℚ) : SmallResult :=
  if sizeMB ≤ MAX_SIZE_MB then .single df
  else .split (smallSplitGo df (df.length / numSplits sizeMB + 1) (numSplits sizeMB) 0)

/-- Counterexample to C8: a 10-row frame whose single output measures
160 MB is rewritten as four shards of 3, 3, 3 and 1 rows — not "N
equal-row-count shards", and the count 4 is `int(160/50) + 1`, not
`160/50`. -/
theorem small_split_unequal_counterexample :
    convert_small_csv (List.replicate 10 [Cell.intv 1]) 160 =
      .split [List.replicate 3 [Cell.intv 1], List.replicate 3 [Cell.intv 1],
              List.replicate 3 [Cell.intv 1], [[Cell.intv 1]]] ∧
    ¬ ∃ k, ([List.replicate 3 [Cell.intv 1], List.replicate 3 [Cell.intv 1],
             List.replicate 3 [Cell.intv 1], [[Cell.intv 1]]].map
               List.length) = List.replicate 4 k := by
  constructor
  · decide
  · rintro ⟨k, h⟩
    simp [List.replicate] at h
    omega

lemma piece_take (df : List Row) (r i : Nat) (hlt : ¬ df.length ≤ i * r) :
    (df.drop (i * r)).take (min ((i + 1) * r) df.length - i * r) =
      (df.drop (i * r)).take r := by
  rw [List.take_eq_take]
  have hir : (i + 1) * r = i * r + r := by ring
  simp only [List.length_drop]
  omega

lemma smallSplitGo_length (df : List Row) (r : Nat) :
    ∀ k i, (smallSplitGo df r k i).length ≤ k := by
  intro k
  induction k with
  | zero => intro i; simp [smallSplitGo]
  | succ k ih =>
    intro i
    simp only [smallSplitGo]
    split
    · simp
    · simpa using ih (i + 1)

lemma smallSplitGo_flatten (df : List Row) (r : Nat) :
    ∀ k i, concatRows (smallSplitGo df r k i) = (df.drop (i * r)).take (k * r) := by
  intro k
  induction k with
  | zero => intro i; simp [smallSplitGo, concatRows]
  | succ k ih =>
    intro i
    simp only [smallSplitGo]
    split
    case isTrue hle =>
      rw [List.drop_eq_nil_of_le hle]
      simp [concatRows]
    case isFalse hlt =>
      simp only [concatRows]
      rw [piece_take df r i hlt, ih (i + 1)]
      have hstep : (i + 1) * r = i * r + r := by ring
      rw [hstep, ← List.drop_drop, ← List.take_add]
      have hsum : r + k * r = (k + 1) * r := by ring
      rw [hsum]

lemma smallSplitGo_getD (df : List Row) (r : Nat) :
    ∀ k i j, j < (smallSplitGo df r k i).length →
      (smallSplitGo df r k i).getD j [] = (df.drop ((i + j) * r)).take r := by
  intro k
  induction k with
  | zero => intro i j hj; simp [smallSplitGo] at hj
  | succ k ih =>
    intro i j hj
    simp only [smallSplitGo] at hj ⊢
    by_cases hle : df.length ≤ i * r
    · rw [if_pos hle] at hj
      simp at hj
    · rw [if_neg hle] at hj
      rw [if_neg hle]
      cases j with
      | zero =>
        show (df.drop (i * r)).take (min ((i + 1) * r) df.length - i * r) =
          (df.drop ((i + 0) * r)).take r
        rw [piece_take df r i hle]
        norm_num
      | succ j =>
        show (smallSplitGo df r k (i + 1)).getD j [] = (df.drop ((i + (j + 1)) * r)).take r
        have harith : (i + 1 + j) * r = (i + (j + 1)) * r := by ring
        rw [ih (i + 1) j (Nat.lt_of_succ_lt_succ (by simpa using hj)), harith]

lemma smallSplitGo_ne_nil (df : List Row) {r : Nat} (hr : 0 < r) :
    ∀ k i, ∀ s ∈ smallSplitGo df r k i, s ≠ [] := by
  intro k
  induction k with
  | zero => intro i s hs; simp [smallSplitGo] at hs
  | succ k ih =>
    intro i s hs
    simp only [smallSplitGo] at hs
    split at hs
    case isTrue hle => simp at hs
    case isFalse hlt =>
      rcases List.mem_cons.mp hs with h | h
      · subst h
        have hir : (i + 1) * r = i * r + r := by ring
        have hlen : 0 < ((df.drop (i * r)).take
            (min ((i + 1) * r) df.length - i * r)).length := by
          simp only [List.length_take, List.length_drop]
          omega
        exact List.ne_nil_of_length_pos hlen
      · exact ih (i + 1) s h

/-- C8 as amended: an output within the `MAX_SIZE_MB` threshold is
returned unsplit; an output exceeding it is rewritten as at most
`N = int(size/50) + 1` shards of `rows_per_split = len // N + 1`
consecutive rows each (the final shard holding only the remaining rows, so
the shards need not have equal row counts, and fewer than `N` shards may
appear); concatenating the shards restores the frame exactly. -/
theorem small_split_structure (df : List Row) (sizeMB : ℚ) :
    (sizeMB ≤ MAX_SIZE_MB → convert_small_csv df sizeMB = .single df) ∧
    (¬ sizeMB ≤ MAX_SIZE_MB →
      ∃ shards, convert_small_csv df sizeMB = .split shards ∧
        concatRows shards = df ∧
        shards.length ≤ numSplits sizeMB ∧
        (∀ j, j < shards.length →
          shards.getD j [] =
            (df.drop (j * (df.length / numSplits sizeMB + 1))).take
              (df.length / numSplits sizeMB + 1)) ∧
        ∀ s ∈ shards, s ≠ []) := by
  constructor
  · intro hle
    simp [convert_small_csv, hle]
  · intro hgt
    refine ⟨smallSplitGo df (df.length / numSplits sizeMB + 1) (numSplits sizeMB) 0,
      by simp [convert_small_csv, hgt], ?_, smallSplitGo_length df _ _ _, ?_, ?_⟩
    · rw [smallSplitGo_flatten]
      have hN : 0 < numSplits sizeMB := Nat.succ_pos _
      have hmod : numSplits sizeMB * (df.length / numSplits sizeMB) +
          df.length % numSplits sizeMB = df.length := Nat.div_add_mod _ _
      have hmlt : df.length % numSplits sizeMB < numSplits sizeMB :=
        Nat.mod_lt _ hN
      have hmul : numSplits sizeMB * (df.length / numSplits sizeMB + 1) =
          numSplits sizeMB * (df.length / numSplits sizeMB) + numSplits sizeMB := by
        ring
      have hle : df.length ≤ numSplits sizeMB * (df.length / numSplits sizeMB + 1) := by
        omega
      simp only [Nat.zero_mul, List.drop_zero]
      exact List.take_of_length_le hle
    · intro j hj
      rw [smallSplitGo_getD df _ (numSplits sizeMB) 0 j hj]
      simp
    · exact smallSplitGo_ne_nil df (Nat.succ_pos _) (numSplits sizeMB) 0

/-- Witness for the amended C8: the 10-row, 160 MB frame splits into four
non-empty consecutive shards of at most 3 rows whose concatenation is the
original frame. -/
theorem small_split_structure_witness :
    ∃ shards,
      convert_small_csv (List.replicate 10 [Cell.intv 1]) 160 = .split shards ∧
      concatRows shards = List.replicate 10 [Cell.intv 1] ∧
      shards.length ≤ numSplits 160 ∧
      (∀ j, j < shards.length →
        shards.getD j [] =
          ((List.replicate 10 ([Cell.intv 1] : Row)).drop
            (j * ((List.replicate 10 ([Cell.intv 1] : Row)).length /
              numSplits 160 + 1))).take
            ((List.replicate 10 ([Cell.intv 1] : Row)).length /
              numSplits 160 + 1)) ∧
      ∀ s ∈ shards, s ≠ [] :=
  (small_split_structure (List.replicate 10 [Cell.intv 1]) 160).2 (by decide)

/-- One row of `road-safety-lookups.csv` as used by `get_labels_easy`:
the `field name` column, and columns 2 and 3 (`code`, already cast to int
by `.astype(int)`, and `label`; a missing label — pandas NaN, a float — is
`none`). -/
structure LookupRow where
  fieldName : String
  code : Int
  label : Option String
deriving DecidableEq, Repr

/-- `get_labels_easy` of `src/utilites.py`: select the lookup rows whose
`field name` equals `field_name` and zip columns 2 and 3 into (code, label)
pairs, in row order (the Python `dict` built from these pairs resolves a
key to the label of its last occurrence). -/
def get_labels_easy (lookups : List LookupRow) (fieldName : String) :
    List (Int × Option String) :=
  (lookups.filter (fun r => r.fieldName == fieldName)).map
    (fun r => (r.code, r.label))

/-- Python `dict` lookup over an insertion sequence: the value of the last
pair with the given key, `none` when the key is absent. -/
def dictGet (pairs : List (Int × Option String)) (k : Int) :
    Option (Option String) :=
  ((pairs.filter (fun p => p.1 == k)).getLast?).map Prod.snd

/-- The special case of `preprocessing.py` lines 19-20: when code 0 is
present and its label is missing (`isinstance(field_labels[0], float)`
detects the NaN), `field_labels[0] = 'None'` overrides it with the literal
string `"None"` (appending the pair gives the same `dict` lookup as the
in-place update). -/
def adjustLabels (pairs : List (Int × Option String)) :
    List (Int × Option String) :=
  if dictGet pairs 0 = some none then pairs ++ [(0, some "None")] else pairs

/-- A value of a categorical column: an integer code (as read from the
CSV), a replaced human-readable label, or a missing value. -/
inductive FVal
  | code (n : Int)
  | label (s : String)
  | na
deriving DecidableEq, Repr

/-- `Series.replace(field_labels)` on one value: a code present in the
mapping becomes its label (a NaN label makes the value missing); any other
value stays unchanged. -/
def replaceVal (pairs : List (Int × Option String)) : FVal → FVal
  | .code n =>
    match dictGet pairs n with
    | some (some s) => .label s
    | some none => .na
    | none => .code n
  | v => v

/-- One iteration of the field loop of `preprocessing.py` lines 17-21
applied to a column of values. -/
def replaceColumn (lookups : List LookupRow) (fieldName : String)
    (column : List FVal) : List FVal :=
  column.map (replaceVal (adjustLabels (get_labels_easy lookups fieldName)))

lemma dictGet_append_zero (pairs : List (Int × Option String)) {n : Int}
    (hn : n ≠ 0) :
    dictGet (pairs ++ [(0, some "None")]) n = dictGet pairs n := by
  unfold dictGet
  rw [List.filter_append]
  have : List.filter (fun p => p.1 == n) [((0 : Int), some "None")] = [] := by
    simp [hn.symm]
  rw [this, List.append_nil]

/-- C9: the replacement loop maps every coded value to its lookup label —
for a code whose (last) lookup label is present, the value becomes that
label; and when code 0 is mapped to a missing label, the replacement is
the literal string `"None"`, not a missing value. -/
theorem label_replacement (lookups : List LookupRow) (fieldName : String) :
    (∀ n s, dictGet (get_labels_easy lookups fieldName) n = some (some s) →
      replaceVal (adjustLabels (get_labels_easy lookups fieldName)) (.code n) =
        .label s) ∧
    (dictGet (get_labels_easy lookups fieldName) 0 = some none →
      replaceVal (adjustLabels (get_labels_easy lookups fieldName)) (.code 0) =
        .label "None") := by
  constructor
  · intro n s hs
    unfold adjustLabels
    by_cases h0 : dictGet (get_labels_easy lookups fieldName) 0 = some none
    · rw [if_pos h0]
      have hn : n ≠ 0 := by
        rintro rfl
        rw [hs] at h0
        simp at h0
      simp only [replaceVal, dictGet_append_zero _ hn, hs]
    · rw [if_neg h0]
      simp only [replaceVal, hs]
  · intro h0
    unfold adjustLabels
    rw [if_pos h0]
    have : dictGet (get_labels_easy lookups fieldName ++ [(0, some "None")]) 0 =
        some (some "None") := by
      unfold dictGet
      rw [List.filter_append]
      simp
    simp only [replaceVal, this]

/-- Witness for C9 on a concrete lookup table: code 1 of `road_type` gets
its label, and code 0 with a missing label becomes the string `"None"`. -/
theorem label_replacement_witness :
    replaceVal (adjustLabels (get_labels_easy
        [⟨"road_type", 1, some "Roundabout"⟩, ⟨"road_type", 0, none⟩,
         ⟨"weather", 1, some "Fine"⟩] "road_type")) (.code 1) =
      .label "Roundabout" ∧
    replaceVal (adjustLabels (get_labels_easy
        [⟨"road_type", 1, some "Roundabout"⟩, ⟨"road_type", 0, none⟩,
         ⟨"weather", 1, some "Fine"⟩] "road_type")) (.code 0) =
      .label "None" :=
  ⟨(label_replacement
      [⟨"road_type", 1, some "Roundabout"⟩, ⟨"road_type", 0, none⟩,
       ⟨"weather", 1, some "Fine"⟩] "road_type").1 1 "Roundabout" (by decide),
   (label_replacement
      [⟨"road_type", 1, some "Roundabout"⟩, ⟨"road_type", 0, none⟩,
       ⟨"weather", 1, some "Fine"⟩] "road_type").2 (by decide)⟩
